import Mathlib

/-!
Verification of the feed-fetch orchestration subsystem of the Infovore RSS
reader (Go).  The definitions below are a shallow embedding of the source:
the per-domain rate limiter (`domainLimiter.acquire` / `release`), the
single-feed fetcher (`Fetcher.FetchFeed`), the batch orchestrator
(`Fetcher.FetchAll`, `fetchSequential`, the result collector of
`fetchParallel`) and the poller interval clamp (`Poller.Start` +
`DB.GetPollingInterval`).  Machine integers are modelled as `Nat`/`Int`,
`time.Time` as `Nat` milliseconds (the zero time is `Option.none`),
`context` cancellation as an explicit outcome parameter, and the SQLite
tables as Lean lists.
-/

namespace Infovore

/-- `MaxConcurrencyPerDomain = 2` (source constant): per-origin concurrency cap. -/
def MaxConcurrencyPerDomain : Nat := 2

/-- `DelayBetweenDomainRequests = 500 * time.Millisecond`, modelled in milliseconds. -/
def DelayBetweenDomainRequests : Nat := 500

/-- `MinPollingIntervalMinutes = 15` (source constant). -/
def MinPollingIntervalMinutes : Nat := 15

/-- `MaxConcurrencyPostgres = 10` (source constant). -/
def MaxConcurrencyPostgres : Nat := 10

/-- `MaxConcurrencySQLite = 1` (source constant). -/
def MaxConcurrencySQLite : Nat := 1

/-! ### Labelled transition system for the per-origin limiter

The limiter state for one origin is the semaphore occupancy (`inflight`,
the number of tokens in the buffered channel `sem`) together with
`lastRequest` (`none` models the zero `time.Time`).  Each goroutine running
one call of `domainLimiter.acquire` for this origin is a thread of the LTS;
its control point tracks the source line it is suspended at.  `dispatches`
is a ghost log: every time an `acquire` call returns successfully (the
request is dispatched), the pair (observed `lastRequest`, dispatch time) is
appended.  The source field `lastRequest` is written only by `release`. -/

/-- Control state of one goroutine executing `domainLimiter.acquire` followed by
the caller's network request and the deferred `release`. -/
inductive TThread where
  /-- before the semaphore `select` -/
  | idle
  /-- `sem <- struct{}{}` succeeded -/
  | slotTaken
  /-- read `dl.lastRequest[domain]` (value `obs`) at time `readTime`; now in the
  spacing check / sleep -/
  | sleeping (obs : Option Nat) (readTime : Nat)
  /-- `acquire` returned nil: the request is dispatched (in flight) -/
  | dispatched
  /-- finished (released, or returned a cancellation error) -/
  | done
deriving DecidableEq, Repr

/-- Global configuration of the limiter LTS for a single origin. -/
structure LimiterConfig where
  /-- current time (monotone along a run) -/
  now : Nat
  /-- semaphore occupancy of `sem` for this origin -/
  inflight : Nat
  /-- `dl.lastRequest[domain]`; `none` is the zero `time.Time` -/
  lastRequest : Option Nat
  /-- one entry per goroutine calling `acquire` for this origin -/
  threads : List TThread
  /-- ghost log of dispatches: (observed last-request value, dispatch time) -/
  dispatches : List (Option Nat × Nat)
deriving DecidableEq, Repr

/-- Earliest time at which the spacing check lets a thread dispatch, as computed
by the source: no sleep when `lastRequest` is zero or the delay has elapsed,
otherwise sleep until `lastRequest + DelayBetweenDomainRequests`. -/
def dispatchTime (obs : Option Nat) (readTime : Nat) : Nat :=
  match obs with
  | none => readTime
  | some r =>
      if readTime - r < DelayBetweenDomainRequests then r + DelayBetweenDomainRequests
      else readTime

/-- One interleaved step of the limiter for a single origin.  Time may advance
at every step. -/
inductive LimiterStep : LimiterConfig → LimiterConfig → Prop where
  /-- `sem <- struct{}{}` wins the select: needs a free slot. -/
  | takeSlot (c : LimiterConfig) (i t : Nat) :
      c.threads[i]? = some TThread.idle →
      c.inflight < MaxConcurrencyPerDomain →
      c.now ≤ t →
      LimiterStep c { now := t, inflight := c.inflight + 1, lastRequest := c.lastRequest,
                      threads := c.threads.set i TThread.slotTaken,
                      dispatches := c.dispatches }
  /-- `<-ctx.Done()` wins the semaphore select: return `ctx.Err()`, no state change. -/
  | cancelSlotWait (c : LimiterConfig) (i t : Nat) :
      c.threads[i]? = some TThread.idle →
      c.now ≤ t →
      LimiterStep c { now := t, inflight := c.inflight, lastRequest := c.lastRequest,
                      threads := c.threads.set i TThread.done,
                      dispatches := c.dispatches }
  /-- read `dl.lastRequest[domain]` under the mutex. -/
  | readLast (c : LimiterConfig) (i t : Nat) :
      c.threads[i]? = some TThread.slotTaken →
      c.now ≤ t →
      LimiterStep c { now := t, inflight := c.inflight, lastRequest := c.lastRequest,
                      threads := c.threads.set i (TThread.sleeping c.lastRequest t),
                      dispatches := c.dispatches }
  /-- the spacing check (and the sleep, when one was needed) completes: `acquire`
  returns nil and the request is dispatched at time `t`. -/
  | dispatch (c : LimiterConfig) (i t : Nat) (obs : Option Nat) (rt : Nat) :
      c.threads[i]? = some (TThread.sleeping obs rt) →
      dispatchTime obs rt ≤ t →
      c.now ≤ t →
      LimiterStep c { now := t, inflight := c.inflight, lastRequest := c.lastRequest,
                      threads := c.threads.set i TThread.dispatched,
                      dispatches := c.dispatches ++ [(obs, t)] }
  /-- `<-ctx.Done()` wins the sleep select: `<-sem` (release the just-acquired
  slot) and return `ctx.Err()`.  Only possible when a sleep was needed. -/
  | cancelSleep (c : LimiterConfig) (i t r rt : Nat) :
      c.threads[i]? = some (TThread.sleeping (some r) rt) →
      rt - r < DelayBetweenDomainRequests →
      c.now ≤ t →
      LimiterStep c { now := t, inflight := c.inflight - 1, lastRequest := c.lastRequest,
                      threads := c.threads.set i TThread.done,
                      dispatches := c.dispatches }
  /-- `release`: record now as `lastRequest`, then `<-sem`. -/
  | release (c : LimiterConfig) (i t : Nat) :
      c.threads[i]? = some TThread.dispatched →
      c.now ≤ t →
      LimiterStep c { now := t, inflight := c.inflight - 1, lastRequest := some t,
                      threads := c.threads.set i TThread.done,
                      dispatches := c.dispatches }

/-- Initial configuration: fresh limiter (`newDomainLimiter`), `n` goroutines
about to call `acquire` for this origin. -/
def initLimiter (n : Nat) : LimiterConfig :=
  { now := 0, inflight := 0, lastRequest := none,
    threads := List.replicate n TThread.idle, dispatches := [] }

/-- A thread in one of these states holds a semaphore slot. -/
def holdsSlot : TThread → Bool
  | TThread.slotTaken => true
  | TThread.sleeping _ _ => true
  | TThread.dispatched => true
  | _ => false

/-- A thread whose request is currently in flight (dispatched, not yet released). -/
def isDispatched : TThread → Bool
  | TThread.dispatched => true
  | _ => false

/-- Adjacent dispatch times are at least `DelayBetweenDomainRequests` apart. -/
def wellSpaced : List Nat → Bool
  | [] => true
  | [_] => true
  | a :: b :: rest => decide (a + DelayBetweenDomainRequests ≤ b) && wellSpaced (b :: rest)

/-- The semaphore occupancy counts exactly the slot-holding threads, is bounded
by the per-origin cap, and every logged dispatch that observed a non-zero
`lastRequest` value `r` happened no earlier than `r + DelayBetweenDomainRequests`. -/
def LimiterInv (c : LimiterConfig) : Prop :=
  c.threads.countP holdsSlot = c.inflight ∧
  c.inflight ≤ MaxConcurrencyPerDomain ∧
  ∀ p ∈ c.dispatches, ∀ r, p.1 = some r → r + DelayBetweenDomainRequests ≤ p.2

/-! ### Functional model of one `acquire`/`release` call

For the sequential claims a single call of `domainLimiter.acquire` is
modelled as a pure function of the limiter state of the feed's domain
(`DomainState`), the current time, and the behaviour of the caller's
`context` during the call (`CtxOutcome`): Go's `select` is nondeterministic,
so which branch wins is an input of the model.  A call that would block
forever on a full semaphore (no concurrent `release` exists inside a single
call) is reported as `blocked`. -/

/-- Limiter state for one domain: `sem` occupancy and `lastRequest`
(`none` models the zero `time.Time`). -/
structure DomainState where
  inflight : Nat
  lastRequest : Option Nat
deriving DecidableEq, Repr

/-- Behaviour of `ctx` during one `acquire` call: never observed cancelled,
cancelled at the semaphore `select`, or cancelled at the spacing-sleep
`select`. -/
inductive CtxOutcome where
  | live
  | cancelAtSlot
  | cancelAtSleep
deriving DecidableEq, Repr

/-- Result of one `acquire` call together with the resulting domain state. -/
inductive AcquireResult where
  | ok (s : DomainState)
  | cancelled (s : DomainState)
  | blocked
deriving DecidableEq, Repr

namespace DomainLimiter

/-- `domainLimiter.acquire` (source lines 175-211) for one domain. -/
def acquire (s : DomainState) (now : Nat) (ctx : CtxOutcome) : AcquireResult :=
  if ctx = CtxOutcome.cancelAtSlot then AcquireResult.cancelled s
  else if MaxConcurrencyPerDomain ≤ s.inflight then AcquireResult.blocked
  else
    let s1 : DomainState := { inflight := s.inflight + 1, lastRequest := s.lastRequest }
    match s.lastRequest with
    | none => AcquireResult.ok s1
    | some r =>
        if now - r < DelayBetweenDomainRequests then
          if ctx = CtxOutcome.cancelAtSleep then
            AcquireResult.cancelled { inflight := s1.inflight - 1, lastRequest := s1.lastRequest }
          else AcquireResult.ok s1
        else AcquireResult.ok s1

/-- `domainLimiter.release` (source lines 214-222): record now as the last
request time, then return the slot. -/
def release (s : DomainState) (now : Nat) : DomainState :=
  { inflight := s.inflight - 1, lastRequest := some now }

end DomainLimiter

/-! ### Storage model (SQLite backend)

Feed and item rows as stored in the `feeds` and `items` tables; `model.Feed`
snapshots have the same shape as a row.  Timestamps are `Nat`; `last_fetched`
is nullable (`Option`); `last_error` uses the empty string for absence, as
the schema default does. -/

/-- A feed row / `model.Feed` snapshot. -/
structure Feed where
  id : Int
  title : String
  url : String
  lastFetched : Option Nat
  lastError : String
deriving DecidableEq, Repr

/-- An item row / `model.Item`. -/
structure ItemRow where
  feedId : Int
  guid : String
  title : String
  content : String
  link : String
  publishedAt : Nat
  fetchedAt : Nat
  isRead : Bool
deriving DecidableEq, Repr

/-- The storage state visible to the fetch subsystem: the `feeds` and `items`
tables, plus the `polling_interval_minutes` setting (already scanned to an
integer; `none` models a failing `GetSetting`). -/
structure DBState where
  feeds : List Feed
  items : List ItemRow
  pollingSetting : Option Int
deriving DecidableEq, Repr

namespace DB

/-- `DB.UpdateFeedError` (UPDATE feeds SET last_error = ? WHERE id = ?). -/
def UpdateFeedError (db : DBState) (feedID : Int) (errMsg : String) : DBState :=
  { db with feeds := db.feeds.map fun f =>
      if f.id = feedID then { f with lastError := errMsg } else f }

/-- `DB.UpdateFeedTitle` (UPDATE feeds SET title = ? WHERE id = ?). -/
def UpdateFeedTitle (db : DBState) (feedID : Int) (title : String) : DBState :=
  { db with feeds := db.feeds.map fun f =>
      if f.id = feedID then { f with title := title } else f }

/-- `DB.UpdateFeedLastFetched`
(UPDATE feeds SET last_fetched = ?, last_error = the empty string WHERE id = ?). -/
def UpdateFeedLastFetched (db : DBState) (feedID : Int) (t : Nat) : DBState :=
  { db with feeds := db.feeds.map fun f =>
      if f.id = feedID then { f with lastFetched := some t, lastError := "" } else f }

/-- `DB.AddItem` (INSERT ... ON CONFLICT(feed_id, guid) DO NOTHING): returns
the updated table and whether the row was newly inserted (`RowsAffected > 0`). -/
def AddItem (db : DBState) (item : ItemRow) : DBState × Bool :=
  if db.items.any fun x => x.feedId == item.feedId && x.guid == item.guid then (db, false)
  else ({ db with items := db.items ++ [item] }, true)

/-- `DB.GetPollingInterval` (source lines 1766-1778): default 15 when the
setting cannot be read, floor-clamped to 15. -/
def GetPollingInterval (db : DBState) : Int :=
  match db.pollingSetting with
  | none => 15
  | some v => if v < 15 then 15 else v

end DB

/-- The interval actually waited by the loop in `Poller.Start` (source lines
474-506): the stored interval, clamped again to `MinPollingIntervalMinutes`. -/
def Poller.effectiveInterval (db : DBState) : Int :=
  let interval := DB.GetPollingInterval db
  if interval < (MinPollingIntervalMinutes : Int) then (MinPollingIntervalMinutes : Int)
  else interval

/-! ### Single-feed fetcher -/

/-- An entry of a parsed feed (`gofeed.Item`): the fields `FetchFeed` reads.
`publishedParsed` is `none` when the origin omitted the date. -/
structure ParsedItem where
  guid : String
  link : String
  title : String
  content : String
  description : String
  publishedParsed : Option Nat
deriving DecidableEq, Repr

/-- A parsed feed (`gofeed.Feed`): the fields `FetchFeed` reads. -/
structure ParsedFeed where
  title : String
  items : List ParsedItem
deriving DecidableEq, Repr

/-- The errors produced by the fetch subsystem: `ctx.Err()`, the
rate-limit-cancelled wrapper of `FetchFeed`, and its parse-failure wrapper. -/
inductive GoErr where
  | ctxCancelled
  | rateLimitCancelled (url : String)
  | parseFeed (url : String) (msg : String)
deriving DecidableEq, Repr

/-- Error-message truncation in `FetchFeed` (source lines 267-270). -/
def truncateErr (msg : String) : String :=
  if msg.length > 200 then msg.take 200 else msg

namespace Fetcher

/-- The loop body of `FetchFeed` over one parsed entry (source lines 288-318):
dedup key = GUID, else link, else skip; published time = origin value, else
now; body = content, else description; submit via `DB.AddItem` and count the
newly inserted rows. -/
def processEntry (feedId : Int) (now : Nat) (acc : DBState × Nat) (item : ParsedItem) :
    DBState × Nat :=
  let guid := if item.guid = "" then item.link else item.guid
  if guid = "" then acc
  else
    let pubDate := match item.publishedParsed with
      | some t => t
      | none => now
    let content := if item.content = "" then item.description else item.content
    let dbItem : ItemRow :=
      { feedId := feedId, guid := guid, title := item.title, content := content,
        link := item.link, publishedAt := pubDate, fetchedAt := now, isRead := false }
    let res := DB.AddItem acc.1 dbItem
    (res.1, acc.2 + (if res.2 then 1 else 0))

/-- Outcome of one `FetchFeed` call: return values, the mutated storage and
the limiter state of the domain of the feed. -/
structure FetchFeedResult where
  newCount : Nat
  error : Option GoErr
  db : DBState
  limiter : DomainState
deriving DecidableEq, Repr

/-- `Fetcher.FetchFeed` (source lines 255-328).  `limiter` is the limiter
state of `extractDomain(feed.URL)`; `parseResult` stands for
`parser.ParseURLWithContext(feed.URL, ctx)`; `now` is the single
`time.Now()` reading.  `none` models a call blocked forever on a full
semaphore. -/
def FetchFeed (limiter : DomainState) (ctx : CtxOutcome) (db : DBState) (feed : Feed)
    (parseResult : Except String ParsedFeed) (now : Nat) : Option FetchFeedResult :=
  match DomainLimiter.acquire limiter now ctx with
  | AcquireResult.blocked => none
  | AcquireResult.cancelled s =>
      some { newCount := 0, error := some (GoErr.rateLimitCancelled feed.url),
             db := db, limiter := s }
  | AcquireResult.ok s1 =>
      match parseResult with
      | Except.error msg =>
          some { newCount := 0, error := some (GoErr.parseFeed feed.url msg),
                 db := DB.UpdateFeedError db feed.id (truncateErr msg),
                 limiter := DomainLimiter.release s1 now }
      | Except.ok parsed =>
          let db1 :=
            if parsed.title ≠ "" ∧ parsed.title ≠ feed.title ∧ feed.title = feed.url then
              DB.UpdateFeedTitle db feed.id parsed.title
            else db
          let folded := parsed.items.foldl (processEntry feed.id now) (db1, 0)
          let db2 := DB.UpdateFeedLastFetched folded.1 feed.id now
          some { newCount := folded.2, error := none, db := db2,
                 limiter := DomainLimiter.release s1 now }

/-- `FetchResult` (source lines 330-335). -/
structure FetchResult where
  feedID : Int
  newItems : Nat
  error : Option GoErr
deriving DecidableEq, Repr

/-- The result-collection loop of `fetchParallel` (source lines 437-453):
drain the results channel, skip errored results, record the rest. -/
def collectResults (rs : List FetchResult) : List (Int × Nat) :=
  rs.foldl (fun acc r =>
    match r.error with
    | some _ => acc
    | none => acc ++ [(r.feedID, r.newItems)]) []

/-- `fetchParallel` at its interface (source lines 389-454): the workers
produce one `FetchResult` per dispatched feed (in some channel order `rs`,
an input of the model since the interleaving is nondeterministic); the
collector accumulates the non-errored ones and the function always returns
a nil batch error. -/
def fetchParallel (rs : List FetchResult) : List (Int × Nat) × Option GoErr :=
  (collectResults rs, none)

/-- Whether the sequential loop observes `ctx.Done()` at the check before
feed number `i` (counted from 0): the context is cancelled from check
`k` onwards. -/
def cancelledAt (cancelAt : Option Nat) (i : Nat) : Bool :=
  match cancelAt with
  | none => false
  | some k => k ≤ i

/-- Outcome of a batch: the accumulated results map (association list in
insertion order; feed ids are unique so this is the Go map), the batch
error, the final storage, and a ghost log of the feeds actually passed to
`FetchFeed`, in call order. -/
structure BatchResult where
  results : List (Int × Nat)
  error : Option GoErr
  db : DBState
  fetched : List Int
deriving DecidableEq, Repr

/-- `Fetcher.fetchSequential` (source lines 361-386): iterate the feeds in
input order; before each feed poll `ctx.Done()` and stop early with
`ctx.Err()` and the results so far; on a per-feed error log and continue;
otherwise record the count.  `domainOf` stands for `extractDomain`,
`parseOf` and `ctxOf` are the per-feed parse and context oracles, `lm` the
per-domain limiter states. -/
def fetchSequential (domainOf : Feed → String) (parseOf : Feed → Except String ParsedFeed)
    (ctxOf : Feed → CtxOutcome) (cancelAt : Option Nat) (now : Nat)
    (lm : String → DomainState) (db : DBState) (acc : List (Int × Nat))
    (fetchedLog : List Int) : List Feed → Nat → Option BatchResult
  | [], _ => some { results := acc, error := none, db := db, fetched := fetchedLog }
  | feed :: rest, i =>
      if cancelledAt cancelAt i then
        some { results := acc, error := some GoErr.ctxCancelled, db := db,
               fetched := fetchedLog }
      else
        let d := domainOf feed
        match FetchFeed (lm d) (ctxOf feed) db feed (parseOf feed) now with
        | none => none
        | some res =>
            let lm2 : String → DomainState := fun s => if s = d then res.limiter else lm s
            match res.error with
            | some _ =>
                fetchSequential domainOf parseOf ctxOf cancelAt now lm2 res.db acc
                  (fetchedLog ++ [feed.id]) rest (i + 1)
            | none =>
                fetchSequential domainOf parseOf ctxOf cancelAt now lm2 res.db
                  (acc ++ [(feed.id, res.newCount)]) (fetchedLog ++ [feed.id]) rest (i + 1)

/-- The worker count chosen by `NewFetcher` from the storage capability flag. -/
def NewFetcherConcurrency (supportsHighConcurrency : Bool) : Nat :=
  if supportsHighConcurrency then MaxConcurrencyPostgres else MaxConcurrencySQLite

/-- `Fetcher.FetchAll` (source lines 337-359), sequential mode: read the feeds
(`GetAllFeeds`), return an empty map for an empty collection, and dispatch
to `fetchSequential` when `concurrency <= 1`.  The parallel branch is
modelled separately by `fetchParallel` because its worker interleaving is
not a function of these inputs. -/
def FetchAll (concurrency : Nat) (domainOf : Feed → String)
    (parseOf : Feed → Except String ParsedFeed) (ctxOf : Feed → CtxOutcome)
    (cancelAt : Option Nat) (now : Nat) (lm : String → DomainState) (db : DBState) :
    Option BatchResult :=
  let feeds := db.feeds
  if feeds.length = 0 then
    some { results := [], error := none, db := db, fetched := [] }
  else if concurrency ≤ 1 then
    fetchSequential domainOf parseOf ctxOf cancelAt now lm db [] [] feeds 0
  else
    none

end Fetcher

/-! ### Reference definitions following the words of the spec (for the
refinement claim about the entry mapping).  These are written from the
spec sentences, to be compared with the source-derived `processEntry`. -/

namespace SpecSide

/-- Spec: dedup key = GUID, or link if GUID absent; entries with neither are
skipped. -/
def dedupKey (it : ParsedItem) : Option String :=
  if it.guid ≠ "" then some it.guid
  else if it.link ≠ "" then some it.link
  else none

/-- Spec: published time = origin-provided value, or current time if absent. -/
def publishedTime (now : Nat) (it : ParsedItem) : Nat :=
  match it.publishedParsed with
  | some t => t
  | none => now

/-- Spec: body = origin content field, or description field if content absent. -/
def body (it : ParsedItem) : String :=
  if it.content ≠ "" then it.content else it.description

/-- The candidate item row submitted for an entry with dedup key `key`. -/
def entryRow (feedId : Int) (now : Nat) (it : ParsedItem) (key : String) : ItemRow :=
  { feedId := feedId, guid := key, title := it.title, content := body it,
    link := it.link, publishedAt := publishedTime now it, fetchedAt := now,
    isRead := false }

/-- Spec: submit each entry as a candidate insert; storage reports whether it
was newly inserted ((feed id, dedup key) not yet stored); duplicates are
silently skipped, not an error; count the newly inserted items.  Returns the
resulting item table and that count. -/
def insertEntries (feedId : Int) (now : Nat) :
    List ItemRow → List ParsedItem → List ItemRow × Nat
  | stored, [] => (stored, 0)
  | stored, e :: es =>
      match dedupKey e with
      | none => insertEntries feedId now stored es
      | some key =>
          if stored.any (fun x => x.feedId == feedId && x.guid == key) then
            insertEntries feedId now stored es
          else
            let r := insertEntries feedId now (stored ++ [entryRow feedId now e key]) es
            (r.1, r.2 + 1)

end SpecSide

/-- A sample parsed feed exercising every branch of the entry mapping: an
entry keyed by GUID, one keyed by its link with an origin date and content,
one with neither key (skipped), and one duplicating the first GUID. -/
def sampleParsed : ParsedFeed :=
  { title := "T",
    items := [
      { guid := "g1", link := "l1", title := "a", content := "",
        description := "d1", publishedParsed := none },
      { guid := "", link := "l2", title := "b", content := "c2",
        description := "d2", publishedParsed := some 5 },
      { guid := "", link := "", title := "c", content := "", description := "",
        publishedParsed := none },
      { guid := "g1", link := "l3", title := "dup", content := "",
        description := "", publishedParsed := none }] }

/-- A context that is never observed cancelled. -/
def ctxLive : Feed → CtxOutcome := fun _ => CtxOutcome.live

/-- Whether a parse oracle result is a success. -/
def parseIsOk : Except String ParsedFeed → Bool
  | Except.ok _ => true
  | Except.error _ => false

/-- Whether a `FetchResult` carries no error. -/
def noErr (r : Fetcher.FetchResult) : Bool :=
  match r.error with
  | none => true
  | some _ => false

/-- Sample feeds and oracles for the batch witnesses. -/
def feedA : Feed := { id := 10, title := "A", url := "a", lastFetched := none, lastError := "" }

def feedB : Feed := { id := 20, title := "B", url := "b", lastFetched := none, lastError := "" }

def feedC : Feed := { id := 30, title := "C", url := "c", lastFetched := none, lastError := "" }

def sampleBatchDb : DBState :=
  { feeds := [feedA, feedB, feedC], items := [], pollingSetting := none }

/-- A parse oracle under which exactly `feedB` fails. -/
def sampleParseOf : Feed → Except String ParsedFeed :=
  fun f => if f.id = 20 then Except.error "bad feed" else Except.ok { title := "", items := [] }

def sampleDomainOf : Feed → String := fun f => f.url

def freshLm : String → DomainState := fun _ => { inflight := 0, lastRequest := none }

/-- Worker results for the C6 parallel-collector witness. -/
def wr1 : List Fetcher.FetchResult := [{ feedID := 10, newItems := 2, error := none }]

def wr2 : List Fetcher.FetchResult := [{ feedID := 30, newItems := 1, error := none }]

def wrerr : Fetcher.FetchResult :=
  { feedID := 20, newItems := 0, error := some GoErr.ctxCancelled }

/-- The configuration reached by the interleaving in which both goroutines
acquire a slot and dispatch before either releases: both spacing checks
observe the zero `lastRequest`, so both dispatch at time 0. -/
def limiterCex : LimiterConfig :=
  { now := 0, inflight := 2, lastRequest := none,
    threads := [TThread.dispatched, TThread.dispatched],
    dispatches := [(none, 0), (none, 0)] }


/-! ### Theorems -/

theorem countP_set_eq {α : Type} (p : α → Bool) (l : List α) (i : Nat) (a b : α)
    (h : l[i]? = some a) :
    (l.set i b).countP p + (if p a then 1 else 0) = l.countP p + (if p b then 1 else 0) := by
  induction l generalizing i with
  | nil => simp at h
  | cons x xs ih =>
      cases i with
      | zero =>
          simp only [List.getElem?_cons_zero, Option.some_inj] at h
          subst h
          simp [List.countP_cons]
          omega
      | succ j =>
          simp only [List.getElem?_cons_succ] at h
          simp only [List.set_cons_succ, List.countP_cons]
          have h2 := ih j h
          omega

theorem dispatchTime_spacing (r rt : Nat) :
    r + DelayBetweenDomainRequests ≤ dispatchTime (some r) rt := by
  simp only [dispatchTime, DelayBetweenDomainRequests]
  split <;> omega

theorem limiterInv_step {c c2 : LimiterConfig} (h : LimiterStep c c2)
    (hinv : LimiterInv c) : LimiterInv c2 := by
  obtain ⟨hcount, hcap, hdisp⟩ := hinv
  cases h with
  | takeSlot i t hth hlt hnow =>
      refine ⟨?_, by dsimp only; omega, by dsimp only; exact hdisp⟩
      have h2 := countP_set_eq holdsSlot c.threads i _ TThread.slotTaken hth
      simp [holdsSlot] at h2
      dsimp only
      omega
  | cancelSlotWait i t hth hnow =>
      refine ⟨?_, hcap, by dsimp only; exact hdisp⟩
      have h2 := countP_set_eq holdsSlot c.threads i _ TThread.done hth
      simp [holdsSlot] at h2
      dsimp only
      omega
  | readLast i t hth hnow =>
      refine ⟨?_, hcap, by dsimp only; exact hdisp⟩
      have h2 := countP_set_eq holdsSlot c.threads i _ (TThread.sleeping c.lastRequest t) hth
      simp [holdsSlot] at h2
      dsimp only
      omega
  | dispatch i t obs rt hth hdt hnow =>
      refine ⟨?_, hcap, ?_⟩
      · have h2 := countP_set_eq holdsSlot c.threads i _ TThread.dispatched hth
        simp [holdsSlot] at h2
        dsimp only
        omega
      · dsimp only
        intro p hp r hr
        simp only [List.mem_append, List.mem_singleton] at hp
        rcases hp with hp | hp
        · exact hdisp p hp r hr
        · subst hp
          simp only at hr
          subst hr
          exact Nat.le_trans (dispatchTime_spacing r rt) hdt
  | cancelSleep i t r rt hth hsleep hnow =>
      refine ⟨?_, by dsimp only; omega, by dsimp only; exact hdisp⟩
      have h2 := countP_set_eq holdsSlot c.threads i _ TThread.done hth
      simp [holdsSlot] at h2
      dsimp only
      omega
  | release i t hth hnow =>
      refine ⟨?_, by dsimp only; omega, by dsimp only; exact hdisp⟩
      have h2 := countP_set_eq holdsSlot c.threads i _ TThread.done hth
      simp [holdsSlot] at h2
      dsimp only
      omega

theorem limiterInv_init (n : Nat) : LimiterInv (initLimiter n) := by
  refine ⟨?_, by simp [initLimiter, MaxConcurrencyPerDomain], by simp [initLimiter]⟩
  simp [initLimiter, List.countP_replicate, holdsSlot]

theorem limiterInv_reachable {n : Nat} {c : LimiterConfig}
    (h : Relation.ReflTransGen LimiterStep (initLimiter n) c) : LimiterInv c := by
  induction h with
  | refl => exact limiterInv_init n
  | tail hab hbc ih => exact limiterInv_step hbc ih


/-- The source loop of `FetchFeed` over the parsed entries computes exactly
the spec-side insertion: same final item table, and the returned counter is
the accumulator plus the number of newly inserted items. -/
theorem processEntries_spec (feedId : Int) (now : Nat) (items : List ParsedItem)
    (db : DBState) (c : Nat) :
    items.foldl (Fetcher.processEntry feedId now) (db, c) =
      ({ feeds := db.feeds, items := (SpecSide.insertEntries feedId now db.items items).1,
         pollingSetting := db.pollingSetting },
       c + (SpecSide.insertEntries feedId now db.items items).2) := by
  induction items generalizing db c with
  | nil => simp [SpecSide.insertEntries]
  | cons e es ih =>
      simp only [List.foldl_cons]
      by_cases hg : e.guid = ""
      · by_cases hl : e.link = ""
        · have hkey : SpecSide.dedupKey e = none := by
            simp [SpecSide.dedupKey, hg, hl]
          have hstep : Fetcher.processEntry feedId now (db, c) e = (db, c) := by
            simp [Fetcher.processEntry, hg, hl]
          rw [hstep, ih]
          simp [SpecSide.insertEntries, hkey]
        · have hkey : SpecSide.dedupKey e = some e.link := by
            simp [SpecSide.dedupKey, hg, hl]
          by_cases hdup : db.items.any fun x => x.feedId == feedId && x.guid == e.link
          · have hstep : Fetcher.processEntry feedId now (db, c) e = (db, c) := by
              simp [Fetcher.processEntry, hg, hl, DB.AddItem, hdup]
            rw [hstep, ih]
            simp [SpecSide.insertEntries, hkey, hdup]
          · have hstep : Fetcher.processEntry feedId now (db, c) e =
                ({ db with items := db.items ++ [SpecSide.entryRow feedId now e e.link] },
                 c + 1) := by
              simp [Fetcher.processEntry, hg, hl, DB.AddItem, hdup, SpecSide.entryRow,
                SpecSide.body, SpecSide.publishedTime]
            rw [hstep, ih]
            simp [SpecSide.insertEntries, hkey, hdup]
            omega
      · have hkey : SpecSide.dedupKey e = some e.guid := by
          simp [SpecSide.dedupKey, hg]
        by_cases hdup : db.items.any fun x => x.feedId == feedId && x.guid == e.guid
        · have hstep : Fetcher.processEntry feedId now (db, c) e = (db, c) := by
            simp [Fetcher.processEntry, hg, DB.AddItem, hdup]
          rw [hstep, ih]
          simp [SpecSide.insertEntries, hkey, hdup]
        · have hstep : Fetcher.processEntry feedId now (db, c) e =
              ({ db with items := db.items ++ [SpecSide.entryRow feedId now e e.guid] },
               c + 1) := by
            simp [Fetcher.processEntry, hg, DB.AddItem, hdup, SpecSide.entryRow,
              SpecSide.body, SpecSide.publishedTime]
          rw [hstep, ih]
          simp [SpecSide.insertEntries, hkey, hdup]
          omega

/-! ### Helper lemmas about `acquire` and the feed-row updates -/

theorem acquire_cancelled_eq {s s2 : DomainState} {now : Nat} {ctx : CtxOutcome}
    (h : DomainLimiter.acquire s now ctx = AcquireResult.cancelled s2) : s2 = s := by
  unfold DomainLimiter.acquire at h
  by_cases h1 : ctx = CtxOutcome.cancelAtSlot
  · rw [if_pos h1] at h
    exact (AcquireResult.cancelled.injEq _ _ ▸ congrArg id h) ▸ (by injection h; simp_all)
  · rw [if_neg h1] at h
    by_cases h2 : MaxConcurrencyPerDomain ≤ s.inflight
    · rw [if_pos h2] at h
      cases h
    · rw [if_neg h2] at h
      cases hl : s.lastRequest with
      | none => rw [hl] at h; dsimp only at h; cases h
      | some r =>
          rw [hl] at h
          dsimp only at h
          by_cases h3 : now - r < DelayBetweenDomainRequests
          · rw [if_pos h3] at h
            by_cases h4 : ctx = CtxOutcome.cancelAtSleep
            · rw [if_pos h4] at h
              injection h with h5
              cases s
              simp_all
            · rw [if_neg h4] at h
              cases h
          · rw [if_neg h3] at h
            cases h

theorem acquire_live_ok (s : DomainState) (now : Nat)
    (h : s.inflight < MaxConcurrencyPerDomain) :
    DomainLimiter.acquire s now CtxOutcome.live =
      AcquireResult.ok { inflight := s.inflight + 1, lastRequest := s.lastRequest } := by
  unfold DomainLimiter.acquire
  rw [if_neg (by simp), if_neg (Nat.not_le.mpr h)]
  cases hl : s.lastRequest with
  | none => rfl
  | some r =>
      dsimp only
      by_cases h3 : now - r < DelayBetweenDomainRequests
      · rw [if_pos h3, if_neg (by simp)]
      · rw [if_neg h3]

theorem string_length_data (s : String) : s.length = s.data.length := rfl

theorem truncateErr_length (msg : String) : (truncateErr msg).length ≤ 200 := by
  unfold truncateErr
  split
  · rw [string_length_data, String.data_take]
    simp
  · omega

theorem truncateErr_ne_empty (msg : String) (h : msg ≠ "") : truncateErr msg ≠ "" := by
  unfold truncateErr
  split
  · intro hc
    have h2 : (msg.take 200).data = [] := by rw [hc]
    rw [String.data_take] at h2
    rcases List.take_eq_nil_iff.mp h2 with h3 | h3
    · omega
    · exact h (by cases msg; simp_all)
  · exact h

theorem updateFeedError_lastFetched (db : DBState) (feedID : Int) (m : String) :
    (DB.UpdateFeedError db feedID m).feeds.map Feed.lastFetched =
      db.feeds.map Feed.lastFetched := by
  simp only [DB.UpdateFeedError, List.map_map]
  apply List.map_congr_left
  intro f hf
  by_cases h : f.id = feedID <;> simp [h]

theorem updateFeedError_rows (db : DBState) (feedID : Int) (m : String) :
    (∀ f2 ∈ (DB.UpdateFeedError db feedID m).feeds, f2.id = feedID → f2.lastError = m) ∧
    (∀ f0 ∈ db.feeds, f0.id = feedID →
      ∃ f2 ∈ (DB.UpdateFeedError db feedID m).feeds, f2.id = feedID ∧ f2.lastError = m) := by
  constructor
  · intro f2 h2 hid
    simp only [DB.UpdateFeedError, List.mem_map] at h2
    obtain ⟨f0, hf0, hmap⟩ := h2
    by_cases h : f0.id = feedID
    · rw [if_pos h] at hmap
      rw [← hmap]
    · rw [if_neg h] at hmap
      exact absurd (hmap ▸ hid) h
  · intro f0 h0 hid
    refine ⟨{ f0 with lastError := m }, ?_, hid, rfl⟩
    simp only [DB.UpdateFeedError, List.mem_map]
    exact ⟨f0, h0, by rw [if_pos hid]⟩

theorem updateFeedLastFetched_rows (db : DBState) (feedID : Int) (t : Nat) :
    (∀ f2 ∈ (DB.UpdateFeedLastFetched db feedID t).feeds,
        f2.id = feedID → f2.lastFetched = some t ∧ f2.lastError = "") ∧
    (∀ f0 ∈ db.feeds, f0.id = feedID →
      ∃ f2 ∈ (DB.UpdateFeedLastFetched db feedID t).feeds,
        f2.id = feedID ∧ f2.lastFetched = some t ∧ f2.lastError = "") := by
  constructor
  · intro f2 h2 hid
    simp only [DB.UpdateFeedLastFetched, List.mem_map] at h2
    obtain ⟨f0, hf0, hmap⟩ := h2
    by_cases h : f0.id = feedID
    · rw [if_pos h] at hmap
      rw [← hmap]
      exact ⟨rfl, rfl⟩
    · rw [if_neg h] at hmap
      exact absurd (hmap ▸ hid) h
  · intro f0 h0 hid
    refine ⟨{ f0 with lastFetched := some t, lastError := "" }, ?_, hid, rfl, rfl⟩
    simp only [DB.UpdateFeedLastFetched, List.mem_map]
    exact ⟨f0, h0, by rw [if_pos hid]⟩

theorem updateFeedTitle_id_map (db : DBState) (feedID : Int) (title : String) :
    (DB.UpdateFeedTitle db feedID title).feeds.map Feed.id = db.feeds.map Feed.id := by
  simp only [DB.UpdateFeedTitle, List.map_map]
  apply List.map_congr_left
  intro f hf
  by_cases h : f.id = feedID <;> simp [h]

theorem updateFeedTitle_titles (db : DBState) (feedID : Int) (title : String) :
    (DB.UpdateFeedTitle db feedID title).feeds.map Feed.title =
      db.feeds.map fun f0 => if f0.id = feedID then title else f0.title := by
  simp only [DB.UpdateFeedTitle, List.map_map]
  apply List.map_congr_left
  intro f hf
  by_cases h : f.id = feedID <;> simp [h]

theorem updateFeedLastFetched_titles (db : DBState) (feedID : Int) (t : Nat) :
    (DB.UpdateFeedLastFetched db feedID t).feeds.map Feed.title =
      db.feeds.map Feed.title := by
  simp only [DB.UpdateFeedLastFetched, List.map_map]
  apply List.map_congr_left
  intro f hf
  by_cases h : f.id = feedID <;> simp [h]

/-- Success path of `FetchFeed`, characterised through the spec-side entry
insertion. -/
theorem fetchFeed_ok (limiter : DomainState) (ctx : CtxOutcome) (db : DBState) (feed : Feed)
    (parsed : ParsedFeed) (now : Nat) (s1 : DomainState)
    (hacq : DomainLimiter.acquire limiter now ctx = AcquireResult.ok s1) :
    Fetcher.FetchFeed limiter ctx db feed (Except.ok parsed) now =
      some { newCount := (SpecSide.insertEntries feed.id now db.items parsed.items).2,
             error := none,
             db := DB.UpdateFeedLastFetched
               { feeds := (if parsed.title ≠ "" ∧ parsed.title ≠ feed.title ∧
                             feed.title = feed.url
                           then DB.UpdateFeedTitle db feed.id parsed.title else db).feeds,
                 items := (SpecSide.insertEntries feed.id now db.items parsed.items).1,
                 pollingSetting := db.pollingSetting } feed.id now,
             limiter := DomainLimiter.release s1 now } := by
  unfold Fetcher.FetchFeed
  rw [hacq]
  by_cases hcond : parsed.title ≠ "" ∧ parsed.title ≠ feed.title ∧ feed.title = feed.url
  · simp only [if_pos hcond]
    rw [processEntries_spec]
    simp [DB.UpdateFeedTitle]
  · simp only [if_neg hcond]
    rw [processEntries_spec]
    simp

/-! ### Claim theorems about the single-feed fetcher -/

/-- C2: Cancellation cleanup: whenever `acquire(ctx, domain)` returns the
cancellation error (cancelled while waiting for a slot or during the spacing
sleep), the limiter state of that domain is restored to its value before
the call (no leaked slots), and `FetchFeed` then returns a
rate-limit-cancelled error with zero items and performs no storage
mutation. -/
theorem fetchFeed_cancellation_cleanup (limiter : DomainState) (now : Nat)
    (ctx : CtxOutcome) (db : DBState) (feed : Feed)
    (parseResult : Except String ParsedFeed) (s2 : DomainState)
    (h : DomainLimiter.acquire limiter now ctx = AcquireResult.cancelled s2) :
    s2 = limiter ∧
    Fetcher.FetchFeed limiter ctx db feed parseResult now =
      some { newCount := 0, error := some (GoErr.rateLimitCancelled feed.url),
             db := db, limiter := s2 } := by
  refine ⟨acquire_cancelled_eq h, ?_⟩
  unfold Fetcher.FetchFeed
  rw [h]

/-- Witness for C2 at a concrete input: a context cancelled at the semaphore
select. -/
theorem fetchFeed_cancellation_cleanup_witness :
    ({ inflight := 0, lastRequest := none } : DomainState) =
        { inflight := 0, lastRequest := none } ∧
    Fetcher.FetchFeed { inflight := 0, lastRequest := none } CtxOutcome.cancelAtSlot
        { feeds := [], items := [], pollingSetting := none }
        { id := 1, title := "t", url := "u", lastFetched := none, lastError := "" }
        (Except.error "boom") 0 =
      some { newCount := 0, error := some (GoErr.rateLimitCancelled "u"),
             db := { feeds := [], items := [], pollingSetting := none },
             limiter := { inflight := 0, lastRequest := none } } :=
  fetchFeed_cancellation_cleanup { inflight := 0, lastRequest := none } 0
    CtxOutcome.cancelAtSlot { feeds := [], items := [], pollingSetting := none }
    { id := 1, title := "t", url := "u", lastFetched := none, lastError := "" }
    (Except.error "boom") { inflight := 0, lastRequest := none } rfl

/-- C3: for every feed whose retrieval or parse fails, `FetchFeed` persists
the error message truncated to at most 200 characters onto the feed's error
field, returns a non-nil error, and leaves the feed's last-fetched timestamp
unchanged; afterwards the feed's error field is non-empty (parse errors are
descriptive, i.e. non-empty). -/
theorem fetchFeed_parse_failure (limiter : DomainState) (ctx : CtxOutcome) (db : DBState)
    (feed : Feed) (msg : String) (now : Nat) (s1 : DomainState)
    (hacq : DomainLimiter.acquire limiter now ctx = AcquireResult.ok s1)
    (hmsg : msg ≠ "") :
    ∃ res, Fetcher.FetchFeed limiter ctx db feed (Except.error msg) now = some res ∧
      res.error = some (GoErr.parseFeed feed.url msg) ∧
      res.db.feeds.map Feed.lastFetched = db.feeds.map Feed.lastFetched ∧
      (∀ f2 ∈ res.db.feeds, f2.id = feed.id →
        f2.lastError = truncateErr msg ∧ f2.lastError.length ≤ 200 ∧ f2.lastError ≠ "") ∧
      (∀ f0 ∈ db.feeds, f0.id = feed.id →
        ∃ f2 ∈ res.db.feeds, f2.id = feed.id ∧ f2.lastError ≠ "") := by
  have hf : Fetcher.FetchFeed limiter ctx db feed (Except.error msg) now =
      some { newCount := 0, error := some (GoErr.parseFeed feed.url msg),
             db := DB.UpdateFeedError db feed.id (truncateErr msg),
             limiter := DomainLimiter.release s1 now } := by
    unfold Fetcher.FetchFeed
    rw [hacq]
  refine ⟨_, hf, rfl, updateFeedError_lastFetched db feed.id (truncateErr msg), ?_, ?_⟩
  · intro f2 h2 hid
    have he := (updateFeedError_rows db feed.id (truncateErr msg)).1 f2 h2 hid
    exact ⟨he, he ▸ truncateErr_length msg, he ▸ truncateErr_ne_empty msg hmsg⟩
  · intro f0 h0 hid
    obtain ⟨f2, h2, hid2, he⟩ := (updateFeedError_rows db feed.id (truncateErr msg)).2 f0 h0 hid
    exact ⟨f2, h2, hid2, he ▸ truncateErr_ne_empty msg hmsg⟩

/-- Witness for C3 at a concrete input. -/
theorem fetchFeed_parse_failure_witness :
    ∃ res, Fetcher.FetchFeed { inflight := 0, lastRequest := none } CtxOutcome.live
        { feeds := [{ id := 1, title := "t", url := "u", lastFetched := some 7,
                      lastError := "" }],
          items := [], pollingSetting := none }
        { id := 1, title := "t", url := "u", lastFetched := some 7, lastError := "" }
        (Except.error "connection refused") 3 = some res ∧
      res.error = some (GoErr.parseFeed "u" "connection refused") ∧
      res.db.feeds.map Feed.lastFetched =
        ({ feeds := [{ id := 1, title := "t", url := "u", lastFetched := some 7,
                       lastError := "" }],
           items := [], pollingSetting := none } : DBState).feeds.map Feed.lastFetched ∧
      (∀ f2 ∈ res.db.feeds, f2.id = (1 : Int) →
        f2.lastError = truncateErr "connection refused" ∧ f2.lastError.length ≤ 200 ∧
          f2.lastError ≠ "") ∧
      (∀ f0 ∈ ({ feeds := [{ id := 1, title := "t", url := "u", lastFetched := some 7,
                             lastError := "" }],
                 items := [], pollingSetting := none } : DBState).feeds, f0.id = (1 : Int) →
        ∃ f2 ∈ res.db.feeds, f2.id = (1 : Int) ∧ f2.lastError ≠ "") :=
  fetchFeed_parse_failure { inflight := 0, lastRequest := none } CtxOutcome.live
    { feeds := [{ id := 1, title := "t", url := "u", lastFetched := some 7, lastError := "" }],
      items := [], pollingSetting := none }
    { id := 1, title := "t", url := "u", lastFetched := some 7, lastError := "" }
    "connection refused" 3 { inflight := 1, lastRequest := none } rfl (by decide)

/-- C4: for every feed whose fetch succeeds (even with zero new items),
`FetchFeed` sets the feed's last-fetched timestamp to the current time —
which, the clock being monotone, is at least the time the fetch began — and
clears its stored error field to empty. -/
theorem fetchFeed_success_updates (limiter : DomainState) (ctx : CtxOutcome) (db : DBState)
    (feed : Feed) (parsed : ParsedFeed) (now tStart : Nat) (s1 : DomainState)
    (hacq : DomainLimiter.acquire limiter now ctx = AcquireResult.ok s1)
    (hstart : tStart ≤ now) :
    ∃ res, Fetcher.FetchFeed limiter ctx db feed (Except.ok parsed) now = some res ∧
      res.error = none ∧
      (∀ f2 ∈ res.db.feeds, f2.id = feed.id →
        f2.lastFetched = some now ∧ f2.lastError = "") ∧
      (∀ f0 ∈ db.feeds, f0.id = feed.id →
        ∃ f2 ∈ res.db.feeds, f2.id = feed.id ∧ f2.lastFetched = some now ∧
          f2.lastError = "") ∧
      tStart ≤ now := by
  refine ⟨_, fetchFeed_ok limiter ctx db feed parsed now s1 hacq, rfl, ?_, ?_, hstart⟩
  · intro f2 h2 hid
    exact (updateFeedLastFetched_rows _ feed.id now).1 f2 h2 hid
  · intro f0 h0 hid
    by_cases hcond : parsed.title ≠ "" ∧ parsed.title ≠ feed.title ∧ feed.title = feed.url
    · have h1 : ({ f0 with title := parsed.title } : Feed) ∈
          ({ feeds := (if parsed.title ≠ "" ∧ parsed.title ≠ feed.title ∧
                         feed.title = feed.url
                       then DB.UpdateFeedTitle db feed.id parsed.title else db).feeds,
             items := (SpecSide.insertEntries feed.id now db.items parsed.items).1,
             pollingSetting := db.pollingSetting } : DBState).feeds := by
        simp only [if_pos hcond, DB.UpdateFeedTitle, List.mem_map]
        exact ⟨f0, h0, by rw [if_pos hid]⟩
      obtain ⟨f2, h2, hid2, hrest⟩ :=
        (updateFeedLastFetched_rows _ feed.id now).2 _ h1 hid
      exact ⟨f2, h2, hid2, hrest⟩
    · have h1 : f0 ∈
          ({ feeds := (if parsed.title ≠ "" ∧ parsed.title ≠ feed.title ∧
                         feed.title = feed.url
                       then DB.UpdateFeedTitle db feed.id parsed.title else db).feeds,
             items := (SpecSide.insertEntries feed.id now db.items parsed.items).1,
             pollingSetting := db.pollingSetting } : DBState).feeds := by
        simp only [if_neg hcond]
        exact h0
      obtain ⟨f2, h2, hid2, hrest⟩ :=
        (updateFeedLastFetched_rows _ feed.id now).2 _ h1 hid
      exact ⟨f2, h2, hid2, hrest⟩

/-- Witness for C4 at a concrete input with zero new items. -/
theorem fetchFeed_success_updates_witness :
    ∃ res, Fetcher.FetchFeed { inflight := 0, lastRequest := none } CtxOutcome.live
        { feeds := [{ id := 2, title := "t", url := "u", lastFetched := none,
                      lastError := "old failure" }],
          items := [], pollingSetting := none }
        { id := 2, title := "t", url := "u", lastFetched := none,
          lastError := "old failure" }
        (Except.ok { title := "", items := [] }) 9 = some res ∧
      res.error = none ∧
      (∀ f2 ∈ res.db.feeds, f2.id = (2 : Int) →
        f2.lastFetched = some 9 ∧ f2.lastError = "") ∧
      (∀ f0 ∈ ({ feeds := [{ id := 2, title := "t", url := "u", lastFetched := none,
                             lastError := "old failure" }],
                 items := [], pollingSetting := none } : DBState).feeds, f0.id = (2 : Int) →
        ∃ f2 ∈ res.db.feeds, f2.id = (2 : Int) ∧ f2.lastFetched = some 9 ∧
          f2.lastError = "") ∧
      4 ≤ 9 :=
  fetchFeed_success_updates { inflight := 0, lastRequest := none } CtxOutcome.live
    { feeds := [{ id := 2, title := "t", url := "u", lastFetched := none,
                  lastError := "old failure" }],
      items := [], pollingSetting := none }
    { id := 2, title := "t", url := "u", lastFetched := none, lastError := "old failure" }
    { title := "", items := [] } 9 4 { inflight := 1, lastRequest := none } rfl (by decide)

/-- C5: for every parsed entry of a successfully fetched feed, `FetchFeed`
computes dedup key = GUID, or link when the GUID is absent, skipping entries
with neither; published time = origin value or the current time; body =
content or description when content is absent; and the returned count (and
the stored rows) equal exactly the spec-side insertion in which storage
reports an entry as newly inserted iff its (feed id, dedup key) pair was not
yet stored, duplicates being skipped silently. -/
theorem fetchFeed_entry_mapping (limiter : DomainState) (ctx : CtxOutcome) (db : DBState)
    (feed : Feed) (parsed : ParsedFeed) (now : Nat) (s1 : DomainState)
    (hacq : DomainLimiter.acquire limiter now ctx = AcquireResult.ok s1) :
    ∃ res, Fetcher.FetchFeed limiter ctx db feed (Except.ok parsed) now = some res ∧
      res.error = none ∧
      res.newCount = (SpecSide.insertEntries feed.id now db.items parsed.items).2 ∧
      res.db.items = (SpecSide.insertEntries feed.id now db.items parsed.items).1 :=
  ⟨_, fetchFeed_ok limiter ctx db feed parsed now s1 hacq, rfl, rfl, rfl⟩

/-- Witness for C5 at `sampleParsed`. -/
theorem fetchFeed_entry_mapping_witness :
    ∃ res, Fetcher.FetchFeed { inflight := 0, lastRequest := none } CtxOutcome.live
        { feeds := [], items := [], pollingSetting := none }
        { id := 3, title := "t", url := "u", lastFetched := none, lastError := "" }
        (Except.ok sampleParsed) 11 = some res ∧
      res.error = none ∧
      res.newCount = (SpecSide.insertEntries 3 11 [] sampleParsed.items).2 ∧
      res.db.items = (SpecSide.insertEntries 3 11 [] sampleParsed.items).1 :=
  fetchFeed_entry_mapping { inflight := 0, lastRequest := none } CtxOutcome.live
    { feeds := [], items := [], pollingSetting := none }
    { id := 3, title := "t", url := "u", lastFetched := none, lastError := "" }
    sampleParsed 11 { inflight := 1, lastRequest := none } rfl

/-- A `FetchFeed` call with a live context on a domain whose semaphore is
empty returns, leaves the domain semaphore empty again, and errs exactly
when the parse fails. -/
theorem fetchFeed_live_total (lm0 : DomainState) (db : DBState) (f : Feed)
    (pr : Except String ParsedFeed) (now : Nat) (hz : lm0.inflight = 0) :
    ∃ res, Fetcher.FetchFeed lm0 CtxOutcome.live db f pr now = some res ∧
      res.limiter.inflight = 0 ∧
      (res.error = none ↔ parseIsOk pr = true) := by
  have hacq := acquire_live_ok lm0 now (by rw [hz]; decide)
  cases pr with
  | error msg =>
      refine ⟨{ newCount := 0, error := some (GoErr.parseFeed f.url msg),
                db := DB.UpdateFeedError db f.id (truncateErr msg),
                limiter := DomainLimiter.release
                  { inflight := lm0.inflight + 1, lastRequest := lm0.lastRequest } now },
              ?_, ?_, ?_⟩
      · unfold Fetcher.FetchFeed
        rw [hacq]
      · simp [DomainLimiter.release, hz]
      · simp [parseIsOk]
  | ok parsed =>
      refine ⟨_, fetchFeed_ok lm0 CtxOutcome.live db f parsed now _ hacq, ?_, ?_⟩
      · simp [DomainLimiter.release, hz]
      · simp [parseIsOk]

/-- The sequential loop with live contexts and empty per-domain semaphores,
never observing cancellation: returns without a batch error, fetches every
feed in input order, and the result keys are exactly the ids of the feeds
whose parse succeeded, in order. -/
theorem fetchSequential_live_none (domainOf : Feed → String)
    (parseOf : Feed → Except String ParsedFeed) (now : Nat) :
    ∀ (feeds : List Feed) (lm : String → DomainState) (db : DBState)
      (acc : List (Int × Nat)) (log : List Int) (i : Nat),
      (∀ d, (lm d).inflight = 0) →
      ∃ res, Fetcher.fetchSequential domainOf parseOf ctxLive none now lm db acc log feeds i
          = some res ∧
        res.error = none ∧
        res.fetched = log ++ feeds.map Feed.id ∧
        res.results.map Prod.fst =
          acc.map Prod.fst ++
            ((feeds.filter fun f => parseIsOk (parseOf f)).map Feed.id) := by
  intro feeds
  induction feeds with
  | nil =>
      intro lm db acc log i hz
      exact ⟨_, rfl, rfl, by simp, by simp⟩
  | cons f rest ih =>
      intro lm db acc log i hz
      obtain ⟨res1, hres1, hlim1, herr1⟩ :=
        fetchFeed_live_total (lm (domainOf f)) db f (parseOf f) now (hz (domainOf f))
      have hcc : Fetcher.cancelledAt none i = false := rfl
      have hz2 : ∀ d, ((fun s => if s = domainOf f then res1.limiter
          else lm s) d).inflight = 0 := by
        intro d
        by_cases hd : d = domainOf f
        · simp [hd, hlim1]
        · simp [hd, hz d]
      cases hpr : parseOf f with
      | error msg =>
          have herr : res1.error ≠ none := by
            rw [hpr] at herr1
            simp [parseIsOk] at herr1
            simp [herr1]
          obtain ⟨e, he⟩ := Option.ne_none_iff_exists.mp herr
          obtain ⟨res, hres, h1, h2, h3⟩ := ih
            (fun s => if s = domainOf f then res1.limiter else lm s) res1.db acc
            (log ++ [f.id]) (i + 1) hz2
          refine ⟨res, ?_, h1, ?_, ?_⟩
          · unfold Fetcher.fetchSequential
            rw [hcc]
            dsimp only [ctxLive]
            rw [hres1]
            dsimp only
            rw [← he]
            dsimp only
            exact hres
          · rw [h2]
            simp
          · rw [h3, List.filter_cons]
            rw [hpr]
            simp [parseIsOk]
      | ok parsed =>
          have herr : res1.error = none := by
            rw [hpr] at herr1
            simp [parseIsOk] at herr1
            exact herr1
          obtain ⟨res, hres, h1, h2, h3⟩ := ih
            (fun s => if s = domainOf f then res1.limiter else lm s) res1.db
            (acc ++ [(f.id, res1.newCount)]) (log ++ [f.id]) (i + 1) hz2
          refine ⟨res, ?_, h1, ?_, ?_⟩
          · unfold Fetcher.fetchSequential
            rw [hcc]
            dsimp only [ctxLive]
            rw [hres1]
            dsimp only
            rw [herr]
            exact hres
          · rw [h2]
            simp
          · rw [h3, List.filter_cons]
            rw [hpr]
            simp [parseIsOk]

/-- The sequential loop with live contexts and empty per-domain semaphores,
cancelled from check `k` onwards (`i ≤ k`, and the cancellation point falls
inside the remaining list): stops at the check before the `(k-i)`-th
remaining feed, having fetched exactly the previous ones in input order,
and returns `ctx.Err()` with the results accumulated so far. -/
theorem fetchSequential_live_cancel (domainOf : Feed → String)
    (parseOf : Feed → Except String ParsedFeed) (now : Nat) (k : Nat) :
    ∀ (feeds : List Feed) (lm : String → DomainState) (db : DBState)
      (acc : List (Int × Nat)) (log : List Int) (i : Nat),
      (∀ d, (lm d).inflight = 0) → i ≤ k → k - i < feeds.length →
      ∃ res, Fetcher.fetchSequential domainOf parseOf ctxLive (some k) now lm db acc log
          feeds i = some res ∧
        res.error = some GoErr.ctxCancelled ∧
        res.fetched = log ++ (feeds.take (k - i)).map Feed.id ∧
        res.results.map Prod.fst =
          acc.map Prod.fst ++
            (((feeds.take (k - i)).filter fun f => parseIsOk (parseOf f)).map Feed.id) := by
  intro feeds
  induction feeds with
  | nil =>
      intro lm db acc log i hz hik hlen
      simp at hlen
  | cons f rest ih =>
      intro lm db acc log i hz hik hlen
      by_cases hki : k ≤ i
      · have hk : k = i := Nat.le_antisymm hki hik
        have hcc : Fetcher.cancelledAt (some k) i = true := by
          simp [Fetcher.cancelledAt, hki]
        refine ⟨{ results := acc, error := some GoErr.ctxCancelled, db := db,
                  fetched := log }, ?_, rfl, ?_, ?_⟩
        · unfold Fetcher.fetchSequential
          rw [hcc]
          rfl
        · simp [hk]
        · simp [hk]
      · have hik2 : i < k := Nat.lt_of_not_le hki
        have hcc : Fetcher.cancelledAt (some k) i = false := by
          simp [Fetcher.cancelledAt]
          omega
        obtain ⟨res1, hres1, hlim1, herr1⟩ :=
          fetchFeed_live_total (lm (domainOf f)) db f (parseOf f) now (hz (domainOf f))
        have hz2 : ∀ d, ((fun s => if s = domainOf f then res1.limiter
            else lm s) d).inflight = 0 := by
          intro d
          by_cases hd : d = domainOf f
          · simp [hd, hlim1]
          · simp [hd, hz d]
        have htake : (f :: rest).take (k - i) = f :: rest.take (k - (i + 1)) := by
          have h1 : k - i = (k - (i + 1)) + 1 := by omega
          rw [h1]
          rfl
        cases hpr : parseOf f with
        | error msg =>
            have herr : res1.error ≠ none := by
              rw [hpr] at herr1
              simp [parseIsOk] at herr1
              simp [herr1]
            obtain ⟨e, he⟩ := Option.ne_none_iff_exists.mp herr
            obtain ⟨res, hres, h1, h2, h3⟩ := ih
              (fun s => if s = domainOf f then res1.limiter else lm s) res1.db acc
              (log ++ [f.id]) (i + 1) hz2 hik2 (by simp at hlen; omega)
            refine ⟨res, ?_, h1, ?_, ?_⟩
            · unfold Fetcher.fetchSequential
              rw [hcc]
              dsimp only [ctxLive]
              rw [hres1]
              dsimp only
              rw [← he]
              dsimp only
              exact hres
            · rw [h2, htake]
              simp
            · rw [h3, htake, List.filter_cons]
              rw [hpr]
              simp [parseIsOk]
        | ok parsed =>
            have herr : res1.error = none := by
              rw [hpr] at herr1
              simp [parseIsOk] at herr1
              exact herr1
            obtain ⟨res, hres, h1, h2, h3⟩ := ih
              (fun s => if s = domainOf f then res1.limiter else lm s) res1.db
              (acc ++ [(f.id, res1.newCount)]) (log ++ [f.id]) (i + 1) hz2 hik2
              (by simp at hlen; omega)
            refine ⟨res, ?_, h1, ?_, ?_⟩
            · unfold Fetcher.fetchSequential
              rw [hcc]
              dsimp only [ctxLive]
              rw [hres1]
              dsimp only
              rw [herr]
              exact hres
            · rw [h2, htake]
              simp
            · rw [h3, htake, List.filter_cons]
              rw [hpr]
              simp [parseIsOk]

/-- The fold of the parallel result collector, with an explicit
accumulator. -/
theorem collectResults_go (rs : List Fetcher.FetchResult) (acc : List (Int × Nat)) :
    rs.foldl (fun acc r =>
      match r.error with
      | some _ => acc
      | none => acc ++ [(r.feedID, r.newItems)]) acc =
    acc ++ ((rs.filter noErr).map fun r => (r.feedID, r.newItems)) := by
  induction rs generalizing acc with
  | nil => simp
  | cons r rest ih =>
      cases he : r.error with
      | none =>
          simp only [List.foldl_cons, he, List.filter_cons]
          rw [ih]
          simp [noErr, he]
      | some e =>
          simp only [List.foldl_cons, he, List.filter_cons]
          rw [ih]
          simp [noErr, he]

/-- C6: failure isolation: with exactly one feed failing and the others
succeeding, the batch returns a result map of size N-1 whose keys are
exactly the succeeding feeds, and no batch-level error — both in sequential
mode (`FetchAll` with at most one worker) and in the result collector of the
parallel mode (one worker result per feed, exactly one errored). -/
theorem fetchAll_failure_isolation (domainOf : Feed → String)
    (parseOf : Feed → Except String ParsedFeed) (now : Nat) (concurrency : Nat)
    (db : DBState) (lm : String → DomainState) (pre post : List Feed) (fj : Feed)
    (m : String) (rs1 rs2 : List Fetcher.FetchResult) (rerr : Fetcher.FetchResult)
    (hfeeds : db.feeds = pre ++ fj :: post)
    (hok : ∀ f ∈ pre ++ post, parseIsOk (parseOf f) = true)
    (hfail : parseOf fj = Except.error m)
    (hconc : concurrency ≤ 1)
    (hz : ∀ d, (lm d).inflight = 0)
    (hrs1 : ∀ r ∈ rs1 ++ rs2, r.error = none)
    (hrs2 : rerr.error ≠ none) :
    (∃ res, Fetcher.FetchAll concurrency domainOf parseOf ctxLive none now lm db
        = some res ∧
      res.error = none ∧
      res.results.length = db.feeds.length - 1 ∧
      res.results.map Prod.fst = (pre ++ post).map Feed.id) ∧
    (Fetcher.fetchParallel (rs1 ++ rerr :: rs2)).2 = none ∧
    (Fetcher.fetchParallel (rs1 ++ rerr :: rs2)).1.length =
      (rs1 ++ rerr :: rs2).length - 1 ∧
    (Fetcher.fetchParallel (rs1 ++ rerr :: rs2)).1 =
      (rs1 ++ rs2).map fun r => (r.feedID, r.newItems) := by
  constructor
  · obtain ⟨res, hres, herr, hfetch, hkeys⟩ :=
      fetchSequential_live_none domainOf parseOf now db.feeds lm db [] [] 0 hz
    have hp : (List.filter (fun f => parseIsOk (parseOf f)) pre) = pre :=
      List.filter_eq_self.mpr fun f hf => hok f (List.mem_append_left _ hf)
    have hq : (List.filter (fun f => parseIsOk (parseOf f)) post) = post :=
      List.filter_eq_self.mpr fun f hf => hok f (List.mem_append_right _ hf)
    have hkeys2 : res.results.map Prod.fst = (pre ++ post).map Feed.id := by
      rw [hkeys, hfeeds, List.filter_append, List.filter_cons, hp, hfail]
      rw [show parseIsOk (Except.error m) = false from rfl, hq]
      simp
    refine ⟨res, ?_, herr, ?_, hkeys2⟩
    · have hlen : ¬ db.feeds.length = 0 := by rw [hfeeds]; simp
      unfold Fetcher.FetchAll
      dsimp only
      rw [if_neg hlen, if_pos hconc]
      exact hres
    · have h1 : (res.results.map Prod.fst).length = ((pre ++ post).map Feed.id).length := by
        rw [hkeys2]
      rw [hfeeds]
      simp at h1
      simp [h1]
  · have h1 : List.filter noErr rs1 = rs1 :=
      List.filter_eq_self.mpr fun r hr => by
        have h := hrs1 r (List.mem_append_left _ hr)
        simp [noErr, h]
    have h2 : List.filter noErr rs2 = rs2 :=
      List.filter_eq_self.mpr fun r hr => by
        have h := hrs1 r (List.mem_append_right _ hr)
        simp [noErr, h]
    have h3 : noErr rerr = false := by
      cases he : rerr.error with
      | none => exact absurd he hrs2
      | some e => simp [noErr, he]
    have hcol : Fetcher.collectResults (rs1 ++ rerr :: rs2) =
        (rs1 ++ rs2).map fun r => (r.feedID, r.newItems) := by
      unfold Fetcher.collectResults
      rw [collectResults_go]
      rw [List.filter_append, List.filter_cons, h1, h2, h3]
      simp
    refine ⟨rfl, ?_, hcol⟩
    have hfp : (Fetcher.fetchParallel (rs1 ++ rerr :: rs2)).1 =
        Fetcher.collectResults (rs1 ++ rerr :: rs2) := rfl
    rw [hfp, hcol]
    simp

/-- Witness for C6: three feeds, the middle one failing; and a worker result
list with exactly one errored entry. -/
theorem fetchAll_failure_isolation_witness :
    (∃ res, Fetcher.FetchAll 1 sampleDomainOf sampleParseOf ctxLive none 0 freshLm
        sampleBatchDb = some res ∧
      res.error = none ∧
      res.results.length = sampleBatchDb.feeds.length - 1 ∧
      res.results.map Prod.fst = ([feedA] ++ [feedC]).map Feed.id) ∧
    (Fetcher.fetchParallel (wr1 ++ wrerr :: wr2)).2 = none ∧
    (Fetcher.fetchParallel (wr1 ++ wrerr :: wr2)).1.length =
      (wr1 ++ wrerr :: wr2).length - 1 ∧
    (Fetcher.fetchParallel (wr1 ++ wrerr :: wr2)).1 =
      (wr1 ++ wr2).map fun r => (r.feedID, r.newItems) :=
  fetchAll_failure_isolation sampleDomainOf sampleParseOf 0 1 sampleBatchDb freshLm
    [feedA] [feedC] feedB "bad feed" wr1 wr2 wrerr
    rfl (by decide) (by simp [sampleParseOf, feedB]) (by decide) (fun d => rfl)
    (by decide) (by decide)

/-- C7: sequential-mode cancellation: with at most one worker, `FetchAll`
iterates the feeds strictly in input order, checks cancellation only at the
check before each feed, and when the context is cancelled from check `k` on
(`k` inside the collection) it stops there: exactly the first `k` feeds were
fetched, in order, and the call returns the partial result map accumulated
so far together with the non-nil cancellation error. -/
theorem fetchAll_sequential_cancellation (domainOf : Feed → String)
    (parseOf : Feed → Except String ParsedFeed) (now : Nat) (concurrency k : Nat)
    (db : DBState) (lm : String → DomainState)
    (hconc : concurrency ≤ 1) (hz : ∀ d, (lm d).inflight = 0)
    (hk : k < db.feeds.length) :
    ∃ res, Fetcher.FetchAll concurrency domainOf parseOf ctxLive (some k) now lm db
        = some res ∧
      res.error = some GoErr.ctxCancelled ∧
      res.fetched = (db.feeds.take k).map Feed.id ∧
      res.results.map Prod.fst =
        ((db.feeds.take k).filter fun f => parseIsOk (parseOf f)).map Feed.id := by
  obtain ⟨res, hres, h1, h2, h3⟩ :=
    fetchSequential_live_cancel domainOf parseOf now k db.feeds lm db [] [] 0 hz
      (Nat.zero_le k) (by simpa using hk)
  refine ⟨res, ?_, h1, by simpa using h2, by simpa using h3⟩
  unfold Fetcher.FetchAll
  dsimp only
  rw [if_neg (by omega), if_pos hconc]
  exact hres

/-- Witness for C7: three feeds, cancellation observed from the check before
the second feed on. -/
theorem fetchAll_sequential_cancellation_witness :
    ∃ res, Fetcher.FetchAll 1 sampleDomainOf sampleParseOf ctxLive (some 1) 0 freshLm
        sampleBatchDb = some res ∧
      res.error = some GoErr.ctxCancelled ∧
      res.fetched = (sampleBatchDb.feeds.take 1).map Feed.id ∧
      res.results.map Prod.fst =
        ((sampleBatchDb.feeds.take 1).filter fun f => parseIsOk (sampleParseOf f)).map
          Feed.id :=
  fetchAll_sequential_cancellation sampleDomainOf sampleParseOf 0 1 1 sampleBatchDb
    freshLm (by decide) (fun d => rfl) (by decide)

/-- C8: one-time title heuristic: on a successful fetch the stored title of
the feed is set to the parsed title exactly when the parsed title is
non-empty, differs from the snapshot title, and the snapshot title equals
the feed URL; in particular once the title differs from the URL this path
never overwrites any stored title. -/
theorem fetchFeed_title_heuristic (limiter : DomainState) (ctx : CtxOutcome) (db : DBState)
    (feed : Feed) (parsed : ParsedFeed) (now : Nat) (s1 : DomainState)
    (hacq : DomainLimiter.acquire limiter now ctx = AcquireResult.ok s1) :
    ∃ res, Fetcher.FetchFeed limiter ctx db feed (Except.ok parsed) now = some res ∧
      (res.db.feeds.map Feed.title =
        if parsed.title ≠ "" ∧ parsed.title ≠ feed.title ∧ feed.title = feed.url
        then db.feeds.map fun f0 => if f0.id = feed.id then parsed.title else f0.title
        else db.feeds.map Feed.title) ∧
      (feed.title ≠ feed.url → res.db.feeds.map Feed.title = db.feeds.map Feed.title) := by
  have hmain :
      (DB.UpdateFeedLastFetched
          { feeds := (if parsed.title ≠ "" ∧ parsed.title ≠ feed.title ∧
                        feed.title = feed.url
                      then DB.UpdateFeedTitle db feed.id parsed.title else db).feeds,
            items := (SpecSide.insertEntries feed.id now db.items parsed.items).1,
            pollingSetting := db.pollingSetting } feed.id now).feeds.map Feed.title =
        if parsed.title ≠ "" ∧ parsed.title ≠ feed.title ∧ feed.title = feed.url
        then db.feeds.map fun f0 => if f0.id = feed.id then parsed.title else f0.title
        else db.feeds.map Feed.title := by
    rw [updateFeedLastFetched_titles]
    by_cases hcond : parsed.title ≠ "" ∧ parsed.title ≠ feed.title ∧ feed.title = feed.url
    · rw [if_pos hcond, if_pos hcond]
      exact updateFeedTitle_titles db feed.id parsed.title
    · rw [if_neg hcond, if_neg hcond]
  refine ⟨_, fetchFeed_ok limiter ctx db feed parsed now s1 hacq, hmain, ?_⟩
  intro hne
  rw [hmain, if_neg ?_]
  intro hcond
  exact hne hcond.2.2

/-- Witness for C8: a feed whose stored title is still the URL placeholder
gets the parsed title. -/
theorem fetchFeed_title_heuristic_witness :
    ∃ res, Fetcher.FetchFeed { inflight := 0, lastRequest := none } CtxOutcome.live
        { feeds := [{ id := 4, title := "u4", url := "u4", lastFetched := none,
                      lastError := "" }],
          items := [], pollingSetting := none }
        { id := 4, title := "u4", url := "u4", lastFetched := none, lastError := "" }
        (Except.ok sampleParsed) 2 = some res ∧
      (res.db.feeds.map Feed.title =
        if sampleParsed.title ≠ "" ∧ sampleParsed.title ≠ "u4" ∧ "u4" = "u4"
        then ({ feeds := [{ id := 4, title := "u4", url := "u4", lastFetched := none,
                            lastError := "" }],
                items := [], pollingSetting := none } : DBState).feeds.map
          fun f0 => if f0.id = (4 : Int) then sampleParsed.title else f0.title
        else ({ feeds := [{ id := 4, title := "u4", url := "u4", lastFetched := none,
                            lastError := "" }],
                items := [], pollingSetting := none } : DBState).feeds.map Feed.title) ∧
      ("u4" ≠ "u4" → res.db.feeds.map Feed.title =
        ({ feeds := [{ id := 4, title := "u4", url := "u4", lastFetched := none,
                       lastError := "" }],
           items := [], pollingSetting := none } : DBState).feeds.map Feed.title) :=
  fetchFeed_title_heuristic { inflight := 0, lastRequest := none } CtxOutcome.live
    { feeds := [{ id := 4, title := "u4", url := "u4", lastFetched := none,
                  lastError := "" }],
      items := [], pollingSetting := none }
    { id := 4, title := "u4", url := "u4", lastFetched := none, lastError := "" }
    sampleParsed 2 { inflight := 1, lastRequest := none } rfl

/-- C9: polling-interval clamp: for every stored polling-interval setting
value v, the stored interval read by the Poller and its effective wait are
both max(v, 15) minutes. -/
theorem poller_interval_clamp (db : DBState) (v : Int) (h : db.pollingSetting = some v) :
    Poller.effectiveInterval db = max v 15 ∧ DB.GetPollingInterval db = max v 15 := by
  have hg : DB.GetPollingInterval db = max v 15 := by
    unfold DB.GetPollingInterval
    rw [h]
    dsimp only
    rcases le_or_lt 15 v with h1 | h1
    · rw [if_neg (not_lt.mpr h1), max_eq_left h1]
    · rw [if_pos h1, max_eq_right h1.le]
  refine ⟨?_, hg⟩
  unfold Poller.effectiveInterval
  rw [hg]
  have h15 : (MinPollingIntervalMinutes : Int) = 15 := rfl
  rw [h15, if_neg (not_lt.mpr (le_max_right v 15))]

/-- Witness for C9: a requested setting of 5 yields an effective interval of
15, never 5. -/
theorem poller_interval_clamp_witness :
    Poller.effectiveInterval { feeds := [], items := [], pollingSetting := some 5 } =
        max 5 15 ∧
    DB.GetPollingInterval { feeds := [], items := [], pollingSetting := some 5 } =
        max 5 15 :=
  poller_interval_clamp { feeds := [], items := [], pollingSetting := some 5 } 5 rfl

/-- C10: whenever `FetchFeed` returns a non-nil error (rate-limit
cancellation or retrieval/parse failure) the returned new-item count is 0;
a non-zero count only comes with a nil error. -/
theorem fetchFeed_error_zero_count (limiter : DomainState) (ctx : CtxOutcome) (db : DBState)
    (feed : Feed) (parseResult : Except String ParsedFeed) (now : Nat)
    (res : Fetcher.FetchFeedResult)
    (h : Fetcher.FetchFeed limiter ctx db feed parseResult now = some res) :
    res.error = none ∨ res.newCount = 0 := by
  unfold Fetcher.FetchFeed at h
  cases hacq : DomainLimiter.acquire limiter now ctx with
  | blocked => rw [hacq] at h; cases h
  | cancelled s =>
      rw [hacq] at h
      injection h with h2
      right
      rw [← h2]
  | ok s1 =>
      rw [hacq] at h
      cases parseResult with
      | error msg =>
          injection h with h2
          right
          rw [← h2]
      | ok parsed =>
          dsimp only at h
          injection h with h2
          left
          rw [← h2]

/-- C1 (amended): origin-limiter invariant.  In every reachable configuration
of the per-origin limiter, (a) at most `MaxConcurrencyPerDomain` requests to
the origin are in flight (the semaphore occupancy, which bounds the
dispatched-and-unreleased threads, never exceeds the cap), and (b) every
dispatch whose spacing check observed a non-zero last-request value `r`
(recorded by `release`, i.e. at completion of an earlier request) happens no
earlier than `r + DelayBetweenDomainRequests`.  Dispatch-to-dispatch spacing
does NOT hold in general (see the counterexample): two concurrent
slot-holders can dispatch arbitrarily close together. -/
theorem origin_limiter_invariant (n : Nat) (c : LimiterConfig)
    (h : Relation.ReflTransGen LimiterStep (initLimiter n) c) :
    c.threads.countP isDispatched ≤ MaxConcurrencyPerDomain ∧
    c.inflight ≤ MaxConcurrencyPerDomain ∧
    ∀ p ∈ c.dispatches, ∀ r, p.1 = some r → r + DelayBetweenDomainRequests ≤ p.2 := by
  obtain ⟨hcount, hcap, hdisp⟩ := limiterInv_reachable h
  refine ⟨?_, hcap, hdisp⟩
  calc c.threads.countP isDispatched ≤ c.threads.countP holdsSlot := by
        apply List.countP_mono_left
        intro x hx hp
        cases x <;> simp_all [isDispatched, holdsSlot]
    _ = c.inflight := hcount
    _ ≤ MaxConcurrencyPerDomain := hcap

/-- Witness for C1 at the configuration reached by one `takeSlot` step of two
goroutines. -/
theorem origin_limiter_invariant_witness :
    ({ now := 0, inflight := 1, lastRequest := none,
       threads := [TThread.slotTaken, TThread.idle],
       dispatches := [] } : LimiterConfig).threads.countP isDispatched ≤
        MaxConcurrencyPerDomain ∧
    ({ now := 0, inflight := 1, lastRequest := none,
       threads := [TThread.slotTaken, TThread.idle],
       dispatches := [] } : LimiterConfig).inflight ≤ MaxConcurrencyPerDomain ∧
    ∀ p ∈ ({ now := 0, inflight := 1, lastRequest := none,
             threads := [TThread.slotTaken, TThread.idle],
             dispatches := [] } : LimiterConfig).dispatches, ∀ r, p.1 = some r →
      r + DelayBetweenDomainRequests ≤ p.2 :=
  origin_limiter_invariant 2
    { now := 0, inflight := 1, lastRequest := none,
      threads := [TThread.slotTaken, TThread.idle], dispatches := [] }
    (Relation.ReflTransGen.single
      (LimiterStep.takeSlot (initLimiter 2) 0 0 rfl (by decide) (by decide)))

/-- C1 counterexample: the dispatch-spacing half of the claim fails.  With
the per-origin cap of 2, two goroutines can interleave
(slot, read, dispatch / slot, read, dispatch, with no release in between) so
that both requests to the same origin are dispatched at time 0 — closer
than `DelayBetweenDomainRequests` apart.  The reached configuration is
`limiterCex`, whose ghost dispatch log (0, 0) is not well spaced. -/
theorem origin_limiter_spacing_counterexample :
    Relation.ReflTransGen LimiterStep (initLimiter 2) limiterCex ∧
    wellSpaced (limiterCex.dispatches.map Prod.snd) = false := by
  constructor
  · have s1 : LimiterStep (initLimiter 2)
        { now := 0, inflight := 1, lastRequest := none,
          threads := [TThread.slotTaken, TThread.idle], dispatches := [] } :=
      LimiterStep.takeSlot (initLimiter 2) 0 0 rfl (by decide) (by decide)
    have s2 : LimiterStep
        { now := 0, inflight := 1, lastRequest := none,
          threads := [TThread.slotTaken, TThread.idle], dispatches := [] }
        { now := 0, inflight := 1, lastRequest := none,
          threads := [TThread.sleeping none 0, TThread.idle], dispatches := [] } :=
      LimiterStep.readLast _ 0 0 rfl (by decide)
    have s3 : LimiterStep
        { now := 0, inflight := 1, lastRequest := none,
          threads := [TThread.sleeping none 0, TThread.idle], dispatches := [] }
        { now := 0, inflight := 1, lastRequest := none,
          threads := [TThread.dispatched, TThread.idle], dispatches := [(none, 0)] } :=
      LimiterStep.dispatch _ 0 0 none 0 rfl (by decide) (by decide)
    have s4 : LimiterStep
        { now := 0, inflight := 1, lastRequest := none,
          threads := [TThread.dispatched, TThread.idle], dispatches := [(none, 0)] }
        { now := 0, inflight := 2, lastRequest := none,
          threads := [TThread.dispatched, TThread.slotTaken],
          dispatches := [(none, 0)] } :=
      LimiterStep.takeSlot _ 1 0 rfl (by decide) (by decide)
    have s5 : LimiterStep
        { now := 0, inflight := 2, lastRequest := none,
          threads := [TThread.dispatched, TThread.slotTaken],
          dispatches := [(none, 0)] }
        { now := 0, inflight := 2, lastRequest := none,
          threads := [TThread.dispatched, TThread.sleeping none 0],
          dispatches := [(none, 0)] } :=
      LimiterStep.readLast _ 1 0 rfl (by decide)
    have s6 : LimiterStep
        { now := 0, inflight := 2, lastRequest := none,
          threads := [TThread.dispatched, TThread.sleeping none 0],
          dispatches := [(none, 0)] } limiterCex :=
      LimiterStep.dispatch _ 1 0 none 0 rfl (by decide) (by decide)
    exact Relation.ReflTransGen.tail (Relation.ReflTransGen.tail
      (Relation.ReflTransGen.tail (Relation.ReflTransGen.tail
        (Relation.ReflTransGen.single s1) s2) s3) s4) s5 |>.tail s6
  · decide

/-- Witness for C10 at a concrete failing input. -/
theorem fetchFeed_error_zero_count_witness :
    ({ newCount := 0, error := some (GoErr.rateLimitCancelled "u"),
       db := { feeds := [], items := [], pollingSetting := none },
       limiter := { inflight := 0, lastRequest := none } } :
        Fetcher.FetchFeedResult).error = none ∨
    ({ newCount := 0, error := some (GoErr.rateLimitCancelled "u"),
       db := { feeds := [], items := [], pollingSetting := none },
       limiter := { inflight := 0, lastRequest := none } } :
        Fetcher.FetchFeedResult).newCount = 0 :=
  fetchFeed_error_zero_count { inflight := 0, lastRequest := none } CtxOutcome.cancelAtSlot
    { feeds := [], items := [], pollingSetting := none }
    { id := 1, title := "t", url := "u", lastFetched := none, lastError := "" }
    (Except.error "x") 0 _ rfl

end Infovore
